import Mathlib

/-!
Verification of the `stunning_chainsaw` ODE stepper core: a shallow
embedding of the forward Euler stepper (`solver::stepper_euler`,
src/include/solver/stepper_euler.hpp) and the Improved Euler / Heun stepper
(`chainsaw::stepper_improved_euler`, src/unnamed/part_000).

State vectors are modelled as `List ℚ`; the system callable
`system(state_in, derivative_out, time)` is modelled as a pure function
`List ℚ → ℚ → List ℚ` returning the derivative vector, following the
external-interface contract that it populates `derivative_out` as a
function of `(state_in, time)` only.
-/

namespace Chainsaw

/-- Modelled from the spec: `it_algebra::increment(x, dxdt, dt)` from the
missing header `chainsaw/detail/it_algebra.hpp` — for every index i,
`x[i] += dt * dxdt[i]`. The iteration range is `[x.begin, x.end)`, so the
destination's length governs the loop. -/
def increment (x dxdt : List ℚ) (dt : ℚ) : List ℚ :=
  (List.range x.length).map (fun i => x.getD i 0 + dt * dxdt.getD i 0)

/-- Modelled from the spec: `it_algebra::scale_two_sum(dest, coeffA, a,
coeffB, b)` from the missing header `chainsaw/detail/it_algebra.hpp` — for
every index i, `dest[i] = coeffA*a[i] + coeffB*b[i]`; `dest` is a distinct
buffer and its length governs the iteration range. -/
def scale_two_sum (dest : List ℚ) (coeffA : ℚ) (a : List ℚ) (coeffB : ℚ) (b : List ℚ) : List ℚ :=
  (List.range dest.length).map (fun i => coeffA * a.getD i 0 + coeffB * b.getD i 0)

/-- Modelled from the spec: `it_algebra::scale_two_sum_accumulate(dest,
coeffA, a, coeffB, b)` from the missing header
`chainsaw/detail/it_algebra.hpp` — for every index i,
`dest[i] += coeffA*a[i] + coeffB*b[i]`; `dest`'s length governs the
iteration range. -/
def scale_two_sum_accumulate (dest : List ℚ) (coeffA : ℚ) (a : List ℚ) (coeffB : ℚ) (b : List ℚ) : List ℚ :=
  (List.range dest.length).map (fun i => dest.getD i 0 + (coeffA * a.getD i 0 + coeffB * b.getD i 0))

/-- The system callable: maps `(state, time)` to the derivative vector. -/
abbrev System := List ℚ → ℚ → List ℚ

/-- Embedding of `solver::stepper_euler`: its only data member is the
scratch derivative buffer `m_dxdt`. -/
structure stepper_euler where
  m_dxdt : List ℚ
deriving DecidableEq, Repr

/-- The default constructor `stepper_euler()` value-initializes `m_dxdt`. -/
def stepper_euler.mk0 : stepper_euler :=
  { m_dxdt := [] }

/-- Embedding of `stepper_euler::order_step`: a `const` member returning
the constant 1, reading no data member. -/
def stepper_euler.order_step (_ : stepper_euler) : ℕ :=
  1

/-- Embedding of the five-argument overload
`stepper_euler::do_step(system, x, dxdt, t, dt)`: it only calls
`it_algebra::increment(x.begin(), x.end(), dxdt.begin(), dt)`. The result
is the updated stepper paired with the updated state. -/
def stepper_euler.do_step_pre (s : stepper_euler) (_system : System)
    (x : List ℚ) (dxdt : List ℚ) (_t dt : ℚ) : stepper_euler × List ℚ :=
  (s, increment x dxdt dt)

/-- Embedding of the four-argument overload
`stepper_euler::do_step(system, x, t, dt)`: evaluates
`system(x, m_dxdt, t)` into the scratch buffer, then delegates to the
five-argument overload with the scratch buffer as the derivative. -/
def stepper_euler.do_step (_s : stepper_euler) (system : System)
    (x : List ℚ) (t dt : ℚ) : stepper_euler × List ℚ :=
  let s1 : stepper_euler := { m_dxdt := system x t }
  s1.do_step_pre system x s1.m_dxdt t dt

/-- Modelled from the spec: the capability check
`chainsaw::detail::has_resize<state_type>::value` from the missing header
`chainsaw/detail/type_traits.hpp` — a compile-time flag telling whether
the state type supports `resize`. We carry it as an explicit boolean
parameter of `adjust_size`. -/
def has_resize_value (hasResize : Bool) : Bool :=
  hasResize

/-- Embedding of `std::vector`-style `resize(n)`: keep the first `n`
elements, append value-initialized (zero) elements when growing. -/
def list_resize (l : List ℚ) (n : ℕ) : List ℚ :=
  l.take n ++ List.replicate (n - l.length) 0

/-- Embedding of `chainsaw::stepper_improved_euler`: the two derivative
scratch buffers, the predicted-state scratch buffer `m_x`, and the step
counter. `m_steps` here is the unbounded count of completed `do_step`
calls; the source's `unsigned long` register holds that count reduced
modulo `2^W` (`W` the platform's value-bit width), read via
`steps_ulong`. -/
structure stepper_improved_euler where
  m_dxdt1 : List ℚ
  m_dxdt2 : List ℚ
  m_x : List ℚ
  m_steps : ℕ
deriving DecidableEq, Repr

/-- The default constructor `stepper_improved_euler()` value-initializes
all three scratch buffers and the step counter. -/
def stepper_improved_euler.mk0 : stepper_improved_euler :=
  { m_dxdt1 := [], m_dxdt2 := [], m_x := [], m_steps := 0 }

/-- Embedding of `stepper_improved_euler::is_adaptive_stepper`, a
`static constexpr bool` equal to `false`. -/
def stepper_improved_euler.is_adaptive_stepper : Bool :=
  false

/-- Embedding of `stepper_improved_euler::order_step`: a `const` member
returning the constant 1, reading no data member. -/
def stepper_improved_euler.order_step (_ : stepper_improved_euler) : ℕ :=
  1

/-- Embedding of `stepper_improved_euler::steps`: returns `m_steps`. -/
def stepper_improved_euler.steps (s : stepper_improved_euler) : ℕ :=
  s.m_steps

/-- Embedding of reading the `unsigned long` member `m_steps` on a
platform whose `unsigned long` has `W` value bits: each `++m_steps` is
addition modulo `2^W`, so after `s.m_steps` completed calls the register
holds `s.m_steps % 2^W`. -/
def stepper_improved_euler.steps_ulong (W : ℕ) (s : stepper_improved_euler) : ℕ :=
  s.m_steps % 2 ^ W

/-- Embedding of `stepper_improved_euler::adjust_size(reference)`: when
`has_resize<state_type>::value` holds, resize `m_dxdt1`, `m_dxdt2` and
`m_x` to `reference.size()`; otherwise do nothing. -/
def stepper_improved_euler.adjust_size (hasResize : Bool)
    (s : stepper_improved_euler) (reference : List ℚ) : stepper_improved_euler :=
  if has_resize_value hasResize then
    { s with
      m_dxdt1 := list_resize s.m_dxdt1 reference.length
      m_dxdt2 := list_resize s.m_dxdt2 reference.length
      m_x := list_resize s.m_x reference.length }
  else
    s

/-- Embedding of `stepper_improved_euler::do_step(system, x, t, dt)`:
1. `system(x, m_dxdt1, t)`;
2. `scale_two_sum(m_x.begin(), m_x.end(), 1., x.begin(), dt, m_dxdt1.begin())`;
3. `system(m_x, m_dxdt2, t + dt)`;
4. `scale_two_sum_accumulate(x.begin(), x.end(), dt * .5, m_dxdt1.begin(), dt * .5, m_dxdt2.begin())`;
5. `++m_steps`.
The result is the updated stepper paired with the updated state. -/
def stepper_improved_euler.do_step (s : stepper_improved_euler)
    (system : System) (x : List ℚ) (t dt : ℚ) : stepper_improved_euler × List ℚ :=
  let dxdt1 := system x t
  let mx := scale_two_sum s.m_x 1 x dt dxdt1
  let dxdt2 := system mx (t + dt)
  let x1 := scale_two_sum_accumulate x (dt * (1 / 2)) dxdt1 (dt * (1 / 2)) dxdt2
  ({ m_dxdt1 := dxdt1, m_dxdt2 := dxdt2, m_x := mx, m_steps := s.m_steps + 1 }, x1)

/-- Folds a sequence of `do_step` calls (each with its own state, time and
step size) over an Improved Euler stepper, keeping the stepper that results. -/
def stepper_improved_euler.run_steps (system : System) :
    stepper_improved_euler → List (List ℚ × ℚ × ℚ) → stepper_improved_euler
  | s, [] => s
  | s, c :: cs => run_steps system (s.do_step system c.1 c.2.1 c.2.2).1 cs

/-- The member names declared in the class body of `solver::stepper_euler`
(src/include/solver/stepper_euler.hpp, lines 10-55): four type aliases, the
default constructor, `order_step`, the two `do_step` overloads and the
private buffer `m_dxdt`. No `is_adaptive_stepper`, `adjust_size` or `steps`
member is declared, and no copy operation is declared (hence none deleted). -/
def stepper_euler_declared_members : List String :=
  ["order_type_t", "time_type_t", "state_type_t", "value_type_t",
   "stepper_euler", "order_step", "do_step", "m_dxdt"]

/-- The member names declared in the class body of
`chainsaw::stepper_improved_euler` (src/unnamed/part_000). -/
def stepper_improved_euler_declared_members : List String :=
  ["order_type", "time_type", "state_type", "value_type",
   "is_adaptive_stepper", "stepper_improved_euler", "order_step",
   "adjust_size", "steps", "do_step",
   "m_dxdt1", "m_dxdt2", "m_x", "m_steps"]

/-- Whether `solver::stepper_euler` deletes its copy constructor: it does
not (no copy operation is declared at all in the class body). -/
def stepper_euler_copy_ctor_deleted : Bool :=
  false

/-- Whether `solver::stepper_euler` deletes its copy assignment operator:
it does not. -/
def stepper_euler_copy_assign_deleted : Bool :=
  false

/-- Whether `chainsaw::stepper_improved_euler` deletes its copy
constructor: it does (`stepper_improved_euler(const stepper_improved_euler
&other) = delete;`). -/
def stepper_improved_euler_copy_ctor_deleted : Bool :=
  true

/-- Whether `chainsaw::stepper_improved_euler` deletes its copy assignment
operator: it does (`operator=(const stepper_improved_euler &other) =
delete;`). -/
def stepper_improved_euler_copy_assign_deleted : Bool :=
  true

/-- A C++ class whose members are copyable, which declares no move
operation, is rejected at compile time on copy construction or copy
assignment exactly when the corresponding special member is deleted. -/
def cpp_copy_rejected (ctorDeleted assignDeleted : Bool) : Bool :=
  ctorDeleted && assignDeleted

/-- The test system of scenarios A and B: `dxdt[i] = -x[i]`. -/
def negSys : System :=
  fun v _ => v.map (fun a => -a)

/-- A freshly constructed Improved Euler stepper after `adjust_size` on a
one-element reference state: all scratch buffers have length 1. -/
def adjusted1 : stepper_improved_euler :=
  stepper_improved_euler.mk0.adjust_size true [1]

/-- An Improved Euler stepper with leftover nonzero scratch contents, all
buffers of length 1, after 3 completed steps. -/
def dirty1 : stepper_improved_euler :=
  { m_dxdt1 := [5], m_dxdt2 := [6], m_x := [7], m_steps := 3 }

/-- An Improved Euler stepper with zeroed scratch contents, all buffers of
length 1, after 3 completed steps. -/
def dirty2 : stepper_improved_euler :=
  { m_dxdt1 := [0], m_dxdt2 := [0], m_x := [0], m_steps := 3 }

lemma range_one_eq : List.range 1 = [0] :=
  rfl

lemma getD_range_map (n : ℕ) (f : ℕ → ℚ) (i : ℕ) (hi : i < n) :
    ((List.range n).map f).getD i 0 = f i := by
  have hlen : i < ((List.range n).map f).length := by
    simpa using hi
  rw [List.getD_eq_getElem _ _ hlen]
  simp

lemma length_scale_two_sum (dest : List ℚ) (ca : ℚ) (a : List ℚ) (cb : ℚ) (b : List ℚ) :
    (scale_two_sum dest ca a cb b).length = dest.length := by
  simp [scale_two_sum]

lemma length_scale_two_sum_accumulate (dest : List ℚ) (ca : ℚ) (a : List ℚ) (cb : ℚ)
    (b : List ℚ) : (scale_two_sum_accumulate dest ca a cb b).length = dest.length := by
  simp [scale_two_sum_accumulate]

lemma length_increment (x dxdt : List ℚ) (dt : ℚ) :
    (increment x dxdt dt).length = x.length := by
  simp [increment]

lemma length_list_resize (l : List ℚ) (n : ℕ) : (list_resize l n).length = n := by
  simp [list_resize]
  omega

lemma run_steps_counts (system : System) (cs : List (List ℚ × ℚ × ℚ)) :
    ∀ s : stepper_improved_euler,
      (stepper_improved_euler.run_steps system s cs).steps = s.steps + cs.length := by
  induction cs with
  | nil => intro s; simp [stepper_improved_euler.run_steps]
  | cons c cs ih =>
      intro s
      simp only [stepper_improved_euler.run_steps, ih]
      simp [stepper_improved_euler.do_step, stepper_improved_euler.steps]
      omega

lemma steps_ulong_run (W : ℕ) (system : System) (calls : List (List ℚ × ℚ × ℚ)) :
    stepper_improved_euler.steps_ulong W
        (stepper_improved_euler.run_steps system stepper_improved_euler.mk0 calls)
      = calls.length % 2 ^ W := by
  have h0 : (stepper_improved_euler.run_steps system stepper_improved_euler.mk0
      calls).m_steps = calls.length := by
    simpa [stepper_improved_euler.mk0, stepper_improved_euler.steps] using
      run_steps_counts system calls stepper_improved_euler.mk0
  simp only [stepper_improved_euler.steps_ulong, h0]

/-- C2: the forward Euler `do_step(system, x, t, dt)` writes
`dxdt = system(x, t)` into the scratch buffer and, for every index i of the
equal-length state, updates `x[i] += dt * dxdt[i]`; the whole result is
exactly the pair of that scratch buffer and that incremented state. -/
theorem euler_do_step_spec (s : stepper_euler) (system : System)
    (x : List ℚ) (t dt : ℚ) (hsys : ∀ v u, (system v u).length = v.length) :
    (s.do_step system x t dt).1.m_dxdt = system x t ∧
    (s.do_step system x t dt).1.m_dxdt.length = x.length ∧
    (s.do_step system x t dt).2.length = x.length ∧
    (s.do_step system x t dt) = ({ m_dxdt := system x t }, increment x (system x t) dt) ∧
    ∀ i : ℕ, i < x.length →
      (s.do_step system x t dt).2.getD i 0
        = x.getD i 0 + dt * (system x t).getD i 0 := by
  refine ⟨rfl, hsys x t, length_increment x (system x t) dt, rfl, ?_⟩
  intro i hi
  exact getD_range_map x.length _ i hi

/-- Witness for C2 at `x = [1]`, `system = negSys`, `t = 0`, `dt = 1/10`. -/
theorem euler_do_step_spec_witness :
    (∀ v u, (negSys v u).length = v.length) ∧
    (0 : ℕ) < ([(1 : ℚ)]).length ∧
    (stepper_euler.mk0.do_step negSys [1] 0 (1 / 10)).2.getD 0 0
      = ([(1 : ℚ)]).getD 0 0 + (1 / 10) * (negSys [1] 0).getD 0 0 := by
  have hsys : ∀ v u, (negSys v u).length = v.length := by
    intro v u; simp [negSys]
  exact ⟨hsys, by decide,
    (euler_do_step_spec stepper_euler.mk0 negSys [1] 0 (1 / 10) hsys).2.2.2.2 0 (by decide)⟩

/-- C4: `order_step()` is the constant 1 for every forward Euler instance
and the constant 1 for every Improved Euler instance, independent of the
instance's state. -/
theorem order_step_constant :
    (∀ s : stepper_euler, s.order_step = 1) ∧
    (∀ s : stepper_improved_euler, s.order_step = 1) :=
  ⟨fun _ => rfl, fun _ => rfl⟩

/-- C8: the precomputed-derivative overload of the forward Euler `do_step`
is exactly `(s, increment x dxdt dt)`: it does not depend on the system
callable (the result is the same for any two systems) and the stepper's
scratch buffer is returned unchanged. -/
theorem euler_do_step_pre_frame :
    ∀ (s : stepper_euler) (system1 system2 : System) (x dxdt : List ℚ) (t dt : ℚ),
      s.do_step_pre system1 x dxdt t dt = (s, increment x dxdt dt) ∧
      s.do_step_pre system1 x dxdt t dt = s.do_step_pre system2 x dxdt t dt ∧
      (s.do_step_pre system1 x dxdt t dt).1.m_dxdt = s.m_dxdt :=
  fun _ _ _ _ _ _ _ => ⟨rfl, rfl, rfl⟩

/-- C3 counterexample: on a platform where `unsigned long` has 64 value
bits, after `2^64` completed `do_step` calls from a fresh stepper the
counter register reads 0, not `2^64`: the claim that `steps()` returns
exactly k after k completed calls for every k is false. -/
theorem improved_steps_wrap :
    stepper_improved_euler.steps_ulong 64
        (stepper_improved_euler.run_steps negSys stepper_improved_euler.mk0
          (List.replicate (2 ^ 64) ([1], 0, 1 / 10))) = 0 ∧
    (0 : ℕ) ≠ 2 ^ 64 := by
  constructor
  · rw [steps_ulong_run, List.length_replicate, Nat.mod_self]
  · norm_num

/-- C3 amended: the Improved Euler step counter register reads 0 on a
fresh instance; each `do_step` increments it by exactly 1 modulo `2^W`
(`W` the `unsigned long` value-bit width) and `adjust_size` leaves it
unchanged; after any sequence of k `do_step` calls it reads `k mod 2^W`,
hence exactly k whenever `k < 2^W`. -/
theorem improved_steps_count_wrap :
    (∀ W : ℕ, stepper_improved_euler.steps_ulong W stepper_improved_euler.mk0 = 0) ∧
    (∀ (W : ℕ) (s : stepper_improved_euler) (system : System) (x : List ℚ) (t dt : ℚ),
      stepper_improved_euler.steps_ulong W ((s.do_step system x t dt).1)
        = (stepper_improved_euler.steps_ulong W s + 1) % 2 ^ W) ∧
    (∀ (W : ℕ) (b : Bool) (s : stepper_improved_euler) (r : List ℚ),
      stepper_improved_euler.steps_ulong W (s.adjust_size b r)
        = stepper_improved_euler.steps_ulong W s) ∧
    (∀ (W : ℕ) (system : System) (calls : List (List ℚ × ℚ × ℚ)),
      stepper_improved_euler.steps_ulong W
          (stepper_improved_euler.run_steps system stepper_improved_euler.mk0 calls)
        = calls.length % 2 ^ W) ∧
    (∀ (W : ℕ) (system : System) (calls : List (List ℚ × ℚ × ℚ)),
      calls.length < 2 ^ W →
        stepper_improved_euler.steps_ulong W
            (stepper_improved_euler.run_steps system stepper_improved_euler.mk0 calls)
          = calls.length) := by
  refine ⟨?_, ?_, ?_, steps_ulong_run, ?_⟩
  · intro W
    simp [stepper_improved_euler.steps_ulong, stepper_improved_euler.mk0]
  · intro W s system x t dt
    show (s.m_steps + 1) % 2 ^ W = (s.m_steps % 2 ^ W + 1) % 2 ^ W
    rw [Nat.mod_add_mod]
  · intro W b s r
    cases b <;> rfl
  · intro W system calls hlt
    rw [steps_ulong_run W system calls, Nat.mod_eq_of_lt hlt]

/-- Witness for the amended C3 at `W = 64` and a single call:
`1 < 2^64`, and the register then reads exactly 1. -/
theorem improved_steps_count_wrap_witness :
    ([([(1 : ℚ)], (0 : ℚ), (1 : ℚ) / 10)] : List (List ℚ × ℚ × ℚ)).length < 2 ^ 64 ∧
    stepper_improved_euler.steps_ulong 64
        (stepper_improved_euler.run_steps negSys stepper_improved_euler.mk0
          [([(1 : ℚ)], (0 : ℚ), (1 : ℚ) / 10)])
      = ([([(1 : ℚ)], (0 : ℚ), (1 : ℚ) / 10)] : List (List ℚ × ℚ × ℚ)).length :=
  ⟨by decide,
    improved_steps_count_wrap.2.2.2.2 64 negSys
      [([(1 : ℚ)], (0 : ℚ), (1 : ℚ) / 10)] (by decide)⟩

/-- C6: with resize support, `adjust_size(reference)` sets all three
scratch buffers' lengths to `reference`'s length (and touches nothing
else); without resize support it is the identity. -/
theorem adjust_size_spec :
    (∀ (s : stepper_improved_euler) (r : List ℚ),
      (s.adjust_size true r).m_dxdt1.length = r.length ∧
      (s.adjust_size true r).m_dxdt2.length = r.length ∧
      (s.adjust_size true r).m_x.length = r.length ∧
      (s.adjust_size true r).m_steps = s.m_steps) ∧
    (∀ (s : stepper_improved_euler) (r : List ℚ), s.adjust_size false r = s) := by
  constructor
  · intro s r
    refine ⟨?_, ?_, ?_, rfl⟩ <;>
      simp [stepper_improved_euler.adjust_size, has_resize_value, length_list_resize]
  · intro s r
    rfl

/-- C1: the Improved Euler `do_step(system, x, t, dt)` on an equal-length
state computes `f1 = system(x, t)` into the first scratch buffer, then the
predicted state `m_x` with `m_x[i] = 1*x[i] + dt*f1[i]`, then
`f2 = system(m_x, t+dt)` into the second scratch buffer, and finally the
updated state `x[i] + (dt/2)*f1[i] + (dt/2)*f2[i]`, in that data-flow
order. -/
theorem improved_do_step_spec (s : stepper_improved_euler) (system : System)
    (x : List ℚ) (t dt : ℚ)
    (hmx : s.m_x.length = x.length)
    (hsys : ∀ v u, (system v u).length = v.length) :
    (s.do_step system x t dt).1.m_dxdt1 = system x t ∧
    (s.do_step system x t dt).1.m_x = scale_two_sum s.m_x 1 x dt (system x t) ∧
    (s.do_step system x t dt).1.m_x.length = x.length ∧
    (∀ i : ℕ, i < x.length →
      (s.do_step system x t dt).1.m_x.getD i 0
        = 1 * x.getD i 0 + dt * (system x t).getD i 0) ∧
    (s.do_step system x t dt).1.m_dxdt2
      = system ((s.do_step system x t dt).1.m_x) (t + dt) ∧
    (s.do_step system x t dt).1.m_dxdt2.length = x.length ∧
    (∀ i : ℕ, i < x.length →
      (s.do_step system x t dt).2.getD i 0
        = x.getD i 0 + dt * (1 / 2) * ((s.do_step system x t dt).1.m_dxdt1).getD i 0
            + dt * (1 / 2) * ((s.do_step system x t dt).1.m_dxdt2).getD i 0) := by
  refine ⟨rfl, rfl, ?_, ?_, rfl, ?_, ?_⟩
  · show (scale_two_sum s.m_x 1 x dt (system x t)).length = x.length
    rw [length_scale_two_sum, hmx]
  · intro i hi
    have hi2 : i < s.m_x.length := by rw [hmx]; exact hi
    exact getD_range_map s.m_x.length _ i hi2
  · show (system (scale_two_sum s.m_x 1 x dt (system x t)) (t + dt)).length = x.length
    rw [hsys, length_scale_two_sum, hmx]
  · intro i hi
    simp only [stepper_improved_euler.do_step, scale_two_sum_accumulate]
    rw [getD_range_map x.length _ i hi]
    ring

/-- Witness for C1 at the scenario-B input: stepper `adjusted1`, system
`negSys`, state `[1]`, `t = 0`, `dt = 1/10`, index 0. -/
theorem improved_do_step_spec_witness :
    adjusted1.m_x.length = ([(1 : ℚ)]).length ∧
    (∀ v u, (negSys v u).length = v.length) ∧
    (0 : ℕ) < ([(1 : ℚ)]).length ∧
    (adjusted1.do_step negSys [1] 0 (1 / 10)).2.getD 0 0
      = ([(1 : ℚ)]).getD 0 0
          + (1 / 10) * (1 / 2) * ((adjusted1.do_step negSys [1] 0 (1 / 10)).1.m_dxdt1).getD 0 0
          + (1 / 10) * (1 / 2) * ((adjusted1.do_step negSys [1] 0 (1 / 10)).1.m_dxdt2).getD 0 0 := by
  have hsys : ∀ v u, (negSys v u).length = v.length := fun v u => by simp [negSys]
  have hmx : adjusted1.m_x.length = ([(1 : ℚ)]).length := by decide
  exact ⟨hmx, hsys, by decide,
    (improved_do_step_spec adjusted1 negSys [1] 0 (1 / 10) hmx hsys).2.2.2.2.2.2 0 (by decide)⟩

/-- C7: one Improved Euler step on `x = [1]` with `dxdt = -x`, `t = 0`,
`dt = 1/10` (buffers pre-sized to length 1) yields `f1 = [-1]`, predicted
state `[9/10]`, `f2 = [-9/10]`, and final state
`[1 + (1/20)*(-1) + (1/20)*(-9/10)] = [181/200]` (that is, 0.905). -/
theorem improved_scenario_b :
    (adjusted1.do_step negSys [1] 0 (1 / 10)).1.m_dxdt1 = [-1] ∧
    (adjusted1.do_step negSys [1] 0 (1 / 10)).1.m_x = [9 / 10] ∧
    (adjusted1.do_step negSys [1] 0 (1 / 10)).1.m_dxdt2 = [-(9 / 10)] ∧
    (adjusted1.do_step negSys [1] 0 (1 / 10)).2
      = [1 + 1 / 20 * (-1) + 1 / 20 * (-(9 / 10))] ∧
    ((1 : ℚ) + 1 / 20 * (-1) + 1 / 20 * (-(9 / 10)) = 181 / 200) := by
  refine ⟨?_, ?_, ?_, ?_, by norm_num⟩ <;>
    norm_num [adjusted1, stepper_improved_euler.mk0, stepper_improved_euler.adjust_size,
      has_resize_value, list_resize, stepper_improved_euler.do_step, negSys,
      scale_two_sum, scale_two_sum_accumulate, range_one_eq,
      List.getD_cons_zero, List.getD_cons_succ]

/-- C5 counterexample: the forward Euler class `solver::stepper_euler`
declares no `is_adaptive_stepper` member at all, so the claim that both
steppers expose it is false. -/
theorem euler_no_is_adaptive_member :
    "is_adaptive_stepper" ∉ stepper_euler_declared_members := by
  decide

/-- C5 amended: the Improved Euler stepper exposes
`is_adaptive_stepper == false`; the forward Euler stepper declares no such
member. -/
theorem is_adaptive_stepper_spec :
    stepper_improved_euler.is_adaptive_stepper = false ∧
    "is_adaptive_stepper" ∈ stepper_improved_euler_declared_members ∧
    "is_adaptive_stepper" ∉ stepper_euler_declared_members := by
  exact ⟨rfl, by decide, by decide⟩

/-- C9 counterexample: `solver::stepper_euler` deletes neither copy
operation, so copies of it are not rejected at compile time; the claim
that both stepper types are non-copyable is false. -/
theorem euler_copyable :
    ¬ (cpp_copy_rejected stepper_euler_copy_ctor_deleted
          stepper_euler_copy_assign_deleted = true ∧
       cpp_copy_rejected stepper_improved_euler_copy_ctor_deleted
          stepper_improved_euler_copy_assign_deleted = true) := by
  decide

/-- C9 amended: the Improved Euler stepper deletes both its copy
constructor and copy assignment, so copying it is rejected at compile
time; the forward Euler stepper declares no deleted copy operation and is
therefore copyable. -/
theorem copy_prohibition_spec :
    cpp_copy_rejected stepper_improved_euler_copy_ctor_deleted
        stepper_improved_euler_copy_assign_deleted = true ∧
    stepper_euler_copy_ctor_deleted = false ∧
    stepper_euler_copy_assign_deleted = false := by
  decide

/-- C10: two Improved Euler steppers whose scratch buffers have the same
lengths produce, from the same state, time, step size and system, the
same final state, and each increments its step counter by exactly 1: the
result does not depend on leftover scratch contents. -/
theorem improved_do_step_noninterference
    (s1 s2 : stepper_improved_euler) (system : System) (x : List ℚ) (t dt : ℚ)
    (h1 : s1.m_dxdt1.length = s2.m_dxdt1.length)
    (h2 : s1.m_dxdt2.length = s2.m_dxdt2.length)
    (h3 : s1.m_x.length = s2.m_x.length) :
    (s1.do_step system x t dt).2 = (s2.do_step system x t dt).2 ∧
    (s1.do_step system x t dt).1.steps = s1.steps + 1 ∧
    (s2.do_step system x t dt).1.steps = s2.steps + 1 := by
  refine ⟨?_, rfl, rfl⟩
  have hmx : scale_two_sum s1.m_x 1 x dt (system x t)
      = scale_two_sum s2.m_x 1 x dt (system x t) := by
    simp only [scale_two_sum, h3]
  simp only [stepper_improved_euler.do_step, hmx]

/-- Witness for C10: `dirty1` and `dirty2` differ only in scratch
contents (lengths all 1, counter 3); one step on `x = [1]` agrees. -/
theorem improved_noninterference_witness :
    dirty1.m_dxdt1.length = dirty2.m_dxdt1.length ∧
    dirty1.m_dxdt2.length = dirty2.m_dxdt2.length ∧
    dirty1.m_x.length = dirty2.m_x.length ∧
    ((dirty1.do_step negSys [1] 0 (1 / 10)).2 = (dirty2.do_step negSys [1] 0 (1 / 10)).2 ∧
     (dirty1.do_step negSys [1] 0 (1 / 10)).1.steps = dirty1.steps + 1 ∧
     (dirty2.do_step negSys [1] 0 (1 / 10)).1.steps = dirty2.steps + 1) :=
  ⟨rfl, rfl, rfl,
    improved_do_step_noninterference dirty1 dirty2 negSys [1] 0 (1 / 10) rfl rfl rfl⟩

end Chainsaw
